import Mathlib

/-
  Verification of the consensus-persistence and epoch-membership core of an
  Espresso-style HotShot sequencer node, against its natural-language
  specification.  The definitions below are a shallow embedding of the Rust
  source (sequencer/src/persistence/sql.rs and
  crates/hotshot/types/src/epoch_membership.rs): SQL tables become lists of
  row structures, transactions become pure state transformations, fallible
  operations return Except, and the async decide-event loop becomes a
  fuel-indexed recursion.
-/

set_option linter.unusedVariables false

namespace Espresso

/-! ## Epoch membership coordinator (epoch_membership.rs) -/

/-- Outcome of `membership_for_epoch` / `stake_table_for_epoch`: either an
`EpochMembership` wrapper is returned, or an error saying catchup is already
in progress, or an error saying catchup is starting (after spawning it). -/
inductive CatchupResult where
  | okMembership (epoch : Option Nat)
  | errInProgress
  | errStartingCatchup
deriving Repr, DecidableEq

/-- `membership_for_epoch` from epoch_membership.rs: returns immediately for
`None`; returns immediately when the membership already has a randomized
stake table; errors without spawning when a `catchup_map` entry exists;
otherwise spawns a catchup task and errors with "starting catchup".  The
boolean in the result records whether `spawn_catchup` was invoked. -/
def membership_for_epoch (hasRandomizedStakeTable : Nat → Bool)
    (catchupMap : List Nat) (maybeEpoch : Option Nat) : CatchupResult × Bool :=
  match maybeEpoch with
  | none => (.okMembership none, false)
  | some e =>
    if hasRandomizedStakeTable e then (.okMembership (some e), false)
    else if catchupMap.contains e then (.errInProgress, false)
    else (.errStartingCatchup, true)

/-- `stake_table_for_epoch` from epoch_membership.rs: identical to
`membership_for_epoch` but gated on `has_stake_table`. -/
def stake_table_for_epoch (hasStakeTable : Nat → Bool)
    (catchupMap : List Nat) (maybeEpoch : Option Nat) : CatchupResult × Bool :=
  match maybeEpoch with
  | none => (.okMembership none, false)
  | some e =>
    if hasStakeTable e then (.okMembership (some e), false)
    else if catchupMap.contains e then (.errInProgress, false)
    else (.errStartingCatchup, true)

/-- State of the coordinator as far as catchup deduplication is concerned:
the key set of `catchup_map` and the multiset of epochs whose spawned catchup
task is past its check-and-insert and has not yet finished. -/
structure CoordState where
  catchupMap : List Nat
  inflight : List Nat
deriving Repr, DecidableEq

/-- The atomic critical section at the start of the task body spawned by
`spawn_catchup`: under the `catchup_map` mutex, if an entry for the epoch
exists the task returns at once; otherwise it installs a broadcast channel
and becomes the in-flight task for the epoch. -/
def tryStartCatchup (s : CoordState) (e : Nat) : CoordState :=
  if s.catchupMap.contains e then s
  else { catchupMap := e :: s.catchupMap, inflight := e :: s.inflight }

/-- The tail of the `spawn_catchup` task body, after `catchup` has finished
and the result has been broadcast: the `catchup_map` entry is removed only
when the result was an error (`if let Err(err) = result { ... remove }`);
a successful entry stays in the map.  Removal from a hash map is modelled by
filtering the key out. -/
def catchupMapAfterBroadcast (catchupMap : List Nat) (e : Nat) (success : Bool) :
    List Nat :=
  if success then catchupMap else catchupMap.filter (fun x => x ≠ e)

/-- Full post-broadcast step of a spawned catchup task: the task leaves the
in-flight set, and the map entry is removed exactly on failure. -/
def finishCatchup (s : CoordState) (e : Nat) (success : Bool) : CoordState :=
  { catchupMap := catchupMapAfterBroadcast s.catchupMap e success,
    inflight := s.inflight.erase e }

/-- Reachable coordinator states: starting from an empty map with no tasks,
tasks atomically check-and-insert (`tryStartCatchup`) and finishing tasks
broadcast and update the map (`finishCatchup`).  A finish step is only
enabled for an epoch with an in-flight task. -/
inductive Reachable : CoordState → Prop where
  | init : Reachable ⟨[], []⟩
  | start (s : CoordState) (e : Nat) : Reachable s → Reachable (tryStartCatchup s e)
  | finish (s : CoordState) (e : Nat) (ok : Bool) :
      Reachable s → e ∈ s.inflight → Reachable (finishCatchup s e ok)

/-! ## record_action (sql.rs) -/

/-- The consensus actions recorded by `record_action`.  The enum lives in the
hotshot-types crate; `record_action` in sql.rs only distinguishes
`Propose` and `Vote` from everything else (wildcard early return). -/
inductive HotShotAction where
  | propose
  | vote
  | daPropose
  | daVote
  | upgradeVote
deriving Repr, DecidableEq

/-- The SQL upsert in `record_action`: insert the view, and on conflict set
the stored view to the maximum of the current value and the new one. -/
def upsertMaxView : Option Nat → Nat → Nat
  | none, v => v
  | some cur, v => max cur v

/-- `record_action` from sql.rs acting on the single-row
`highest_voted_view` table: `Propose` and `Vote` MAX-upsert the view; every
other action returns successfully leaving the table unchanged. -/
def record_action (hvv : Option Nat) (view : Nat) (action : HotShotAction) :
    Option Nat :=
  match action with
  | .propose => some (upsertMaxView hvv view)
  | .vote => some (upsertMaxView hvv view)
  | _ => hvv

/-- Folding a sequence of `record_action` calls over the stored state. -/
def runActions (hvv : Option Nat) (acts : List (Nat × HotShotAction)) : Option Nat :=
  acts.foldl (fun s p => record_action s p.1 p.2) hvv

/-! ## load_start_epoch_info (sql.rs) -/

/-- A row of the `epoch_drb_and_root` table: epoch primary key, nullable
DRB-result blob, nullable block-header blob (header kept opaque). -/
structure EpochDrbRootRow where
  epoch : Nat
  drb_result : Option (List Nat)
  block_header : Option Nat
deriving Repr, DecidableEq

/-- The `InitializerEpochInfo` record produced by `load_start_epoch_info`. -/
structure InitializerEpochInfo where
  epoch : Nat
  drb_result : List Nat
  block_header : Option Nat
deriving Repr, DecidableEq

/-- Per-row processing inside `load_start_epoch_info`: a row with a present
DRB result must convert to a fixed 32-byte array (else "invalid drb result");
a row with an absent DRB result is silently mapped to nothing. -/
def processEpochRow (r : EpochDrbRootRow) : Except Unit (Option InitializerEpochInfo) :=
  match r.drb_result with
  | some drb =>
    if drb.length = 32 then .ok (some ⟨r.epoch, drb, r.block_header⟩)
    else .error ()
  | none => .ok none

/-- The `filter_map`-then-`collect` over fallible per-row results: the first
error short-circuits, `Ok(None)` rows are dropped. -/
def collectEpochRows : List EpochDrbRootRow → Except Unit (List InitializerEpochInfo)
  | [] => .ok []
  | r :: rs =>
    match processEpochRow r with
    | .error e => .error e
    | .ok none => collectEpochRows rs
    | .ok (some i) => (collectEpochRows rs).map (fun l => i :: l)

/-- `load_start_epoch_info` from sql.rs: select rows ordered by epoch
descending limited to `RECENT_STAKE_TABLES_LIMIT` (the table argument is the
query result, so it is taken sorted descending by epoch; the limit constant
is defined outside the sources at hand and is passed as a parameter), then
reverse to ascending order and process each row. -/
def load_start_epoch_info (tbl : List EpochDrbRootRow) (limit : Nat) :
    Except Unit (List InitializerEpochInfo) :=
  collectEpochRows ((tbl.take limit).reverse)

/-! ## Legacy-table migrations (sql.rs) -/

/-- A row of a legacy (v1) table: view key plus an opaque serialized artifact. -/
structure LegacyRow where
  view : Nat
  data : Nat
deriving Repr, DecidableEq

/-- Key-presence test in a v2 table (view is the primary key). -/
def hasKey (tbl : List (Nat × Nat)) (k : Nat) : Bool :=
  tbl.any (fun r => r.1 = k)

/-- Bulk INSERT ... ON CONFLICT DO NOTHING: rows whose primary key is already
present are skipped, the rest are appended. -/
def insertCDN (tbl : List (Nat × Nat)) (rows : List (Nat × Nat)) : List (Nat × Nat) :=
  rows.foldl (fun t r => if hasKey t r.1 then t else t ++ [r]) tbl

/-- Bulk INSERT without a conflict clause: the statement fails with a
primary-key constraint violation as soon as any row's key is already
present. -/
def insertStrict (tbl : List (Nat × Nat)) (rows : List (Nat × Nat)) :
    Except Unit (List (Nat × Nat)) :=
  rows.foldlM (fun t r => if hasKey t r.1 then .error () else .ok (t ++ [r])) tbl

/-- `SELECT ... WHERE view >= offset ORDER BY view LIMIT batch_size` over a
legacy table (held sorted ascending by view). -/
def selectBatch (legacy : List LegacyRow) (offset batchSize : Nat) : List LegacyRow :=
  (legacy.filter (fun r => offset ≤ r.view)).take batchSize

/-- The `epoch_migration` marker row for one table: completion flag and
resumption offset. -/
structure MigrationMarker where
  completed : Bool
  migrated_rows : Nat
deriving Repr, DecidableEq

/-- The batch loop shared by all five legacy migrations in sql.rs: select a
batch at the current offset, convert, set the offset to the view of the last
converted row, bulk-insert (with or without ON CONFLICT DO NOTHING, per the
`cdn` flag), and stop when a batch is empty or short.  The loop terminates in
the source; here recursion is fuel-indexed and exhausted fuel is an error. -/
def migrateLoop (cdn : Bool) (convert : Nat → Nat) (batchSize : Nat)
    (legacy : List LegacyRow) :
    Nat → List (Nat × Nat) → Nat → Except Unit (List (Nat × Nat) × Nat)
  | 0, _, _ => .error ()
  | fuel + 1, v2, offset =>
    let rows := selectBatch legacy offset batchSize
    if rows.isEmpty then .ok (v2, offset)
    else
      let values := rows.map (fun r => (r.view, convert r.data))
      let offset' := ((values.getLast?).map Prod.fst).getD offset
      let inserted : Except Unit (List (Nat × Nat)) :=
        if cdn then .ok (insertCDN v2 values) else insertStrict v2 values
      match inserted with
      | .error e => .error e
      | .ok v2' =>
        if rows.length < batchSize then .ok (v2', offset')
        else migrateLoop cdn convert batchSize legacy fuel v2' offset'

/-- A whole legacy-table migration: skip when the marker says completed,
otherwise run the batch loop from the recorded offset and finally record
`(completed := true, offset)`. -/
def migrateTable (cdn : Bool) (convert : Nat → Nat) (batchSize : Nat)
    (legacy : List LegacyRow) (v2 : List (Nat × Nat)) (marker : MigrationMarker)
    (fuel : Nat) : Except Unit (List (Nat × Nat) × MigrationMarker) :=
  if marker.completed then .ok (v2, marker)
  else
    match migrateLoop cdn convert batchSize legacy fuel v2 marker.migrated_rows with
    | .error e => .error e
    | .ok (v2', offset') => .ok (v2', ⟨true, offset'⟩)

/-- `migrate_anchor_leaf`: bulk insert carries ON CONFLICT DO NOTHING. -/
def migrate_anchor_leaf (convert : Nat → Nat) (batchSize : Nat)
    (legacy : List LegacyRow) (v2 : List (Nat × Nat)) (marker : MigrationMarker)
    (fuel : Nat) : Except Unit (List (Nat × Nat) × MigrationMarker) :=
  migrateTable true convert batchSize legacy v2 marker fuel

/-- `migrate_da_proposals`: bulk insert carries ON CONFLICT DO NOTHING. -/
def migrate_da_proposals (convert : Nat → Nat) (batchSize : Nat)
    (legacy : List LegacyRow) (v2 : List (Nat × Nat)) (marker : MigrationMarker)
    (fuel : Nat) : Except Unit (List (Nat × Nat) × MigrationMarker) :=
  migrateTable true convert batchSize legacy v2 marker fuel

/-- `migrate_vid_shares`: unlike the other four migrations, the bulk insert
built in the source (sql.rs lines 1607-1616) does NOT push an
ON CONFLICT DO NOTHING clause. -/
def migrate_vid_shares (convert : Nat → Nat) (batchSize : Nat)
    (legacy : List LegacyRow) (v2 : List (Nat × Nat)) (marker : MigrationMarker)
    (fuel : Nat) : Except Unit (List (Nat × Nat) × MigrationMarker) :=
  migrateTable false convert batchSize legacy v2 marker fuel

/-- `migrate_quorum_proposals`: bulk insert carries ON CONFLICT DO NOTHING. -/
def migrate_quorum_proposals (convert : Nat → Nat) (batchSize : Nat)
    (legacy : List LegacyRow) (v2 : List (Nat × Nat)) (marker : MigrationMarker)
    (fuel : Nat) : Except Unit (List (Nat × Nat) × MigrationMarker) :=
  migrateTable true convert batchSize legacy v2 marker fuel

/-- `migrate_quorum_certificates`: bulk insert carries ON CONFLICT DO NOTHING. -/
def migrate_quorum_certificates (convert : Nat → Nat) (batchSize : Nat)
    (legacy : List LegacyRow) (v2 : List (Nat × Nat)) (marker : MigrationMarker)
    (fuel : Nat) : Except Unit (List (Nat × Nat) × MigrationMarker) :=
  migrateTable true convert batchSize legacy v2 marker fuel

/-! ## Consensus data model (sql.rs persistence store) -/

/-- A decided leaf: view number, block height (`block_header().block_number()`)
and an optional block payload (leaves are stored with the payload removed and
may be re-filled from the DA proposal at decide time). -/
structure Leaf2 where
  view : Nat
  height : Nat
  payload : Option (List Nat)
deriving Repr, DecidableEq

/-- A quorum certificate: the view it certifies and the leaf commitment. -/
structure QC where
  view : Nat
  leafCommit : Nat
deriving Repr, DecidableEq

/-- A row of `anchor_leaf2` (view primary key, leaf blob, qc blob), with the
blobs in deserialized form. -/
structure AnchorRow where
  view : Nat
  leaf : Leaf2
  qc : QC
deriving Repr, DecidableEq

/-- A row of `vid_share2` (the share kept opaque). -/
structure VidRow where
  view : Nat
  data : Nat
deriving Repr, DecidableEq

/-- A row of `da_proposal2`: the proposal's encoded transactions, from which
the payload is reconstructed at decide time. -/
structure DaRow where
  view : Nat
  encodedTxs : List Nat
deriving Repr, DecidableEq

/-- A row of `quorum_proposals2` (payload opaque). -/
structure QpRow where
  view : Nat
  data : Nat
deriving Repr, DecidableEq

/-- A row of `quorum_certificate2` (payload opaque). -/
structure QcRow where
  view : Nat
  data : Nat
deriving Repr, DecidableEq

/-- A row of `state_cert`, keyed by view; the deserialized certificate
carries its epoch. -/
structure StateCertRow where
  view : Nat
  epoch : Nat
  cert : Nat
deriving Repr, DecidableEq

/-- A row of `finalized_state_cert`, keyed by epoch. -/
structure FinStateCertRow where
  epoch : Nat
  cert : Nat
deriving Repr, DecidableEq

/-- The consensus-persistence tables touched by the decide-event generator
and the pruner, plus the `event_stream` singleton row
(`last_processed_view`, absent before the first decide). -/
structure DB where
  anchor_leaf2 : List AnchorRow
  vid_share2 : List VidRow
  da_proposal2 : List DaRow
  quorum_proposals2 : List QpRow
  quorum_certificate2 : List QcRow
  state_cert : List StateCertRow
  finalized_state_cert : List FinStateCertRow
  event_stream : Option Nat
deriving Repr, DecidableEq

/-! ## Decide-event generator (generate_decide_events in sql.rs) -/

/-- The first view after the last decide:
`match last_processed_view { Some(v) => v + 1, None => 0 }`. -/
def fromViewOf : Option Nat → Nat
  | some v => v + 1
  | none => 0

/-- The rows scanned by the generator:
`SELECT leaf, qc FROM anchor_leaf2 WHERE view >= from_view ORDER BY view`
(the table is held sorted ascending by view). -/
def eligibleRows (db : DB) : List AnchorRow :=
  db.anchor_leaf2.filter (fun r => fromViewOf db.event_stream ≤ r.view)

/-- The row walk of `generate_decide_events`: starting with `parent = None`,
accept a row when there is no parent yet or its leaf's block height is the
parent height plus one, updating the parent; stop at the first gap. -/
def collectChain : Option Nat → List AnchorRow → List AnchorRow
  | _, [] => []
  | none, r :: rs => r :: collectChain (some r.leaf.height) rs
  | some p, r :: rs =>
    if r.leaf.height = p + 1 then r :: collectChain (some r.leaf.height) rs
    else []

/-- The leaf chain of one iteration of the generator's loop. -/
def decideChain (db : DB) : List AnchorRow :=
  collectChain none (eligibleRows db)

/-- Boolean check that a row list is consecutive by block height continuing
from an optional previous height. -/
def consecFrom : Option Nat → List AnchorRow → Bool
  | _, [] => true
  | none, r :: rs => consecFrom (some r.leaf.height) rs
  | some p, r :: rs =>
    if r.leaf.height = p + 1 then consecFrom (some r.leaf.height) rs
    else false

/-- One list is an initial segment of another. -/
def isPrefOf (p l : List AnchorRow) : Prop :=
  ∃ t, p ++ t = l

/-- `state_cert` rows in a view range, as collected for a decide event. -/
def stateCertsInRange (db : DB) (fromV toV : Nat) : List StateCertRow :=
  db.state_cert.filter (fun r => fromV ≤ r.view ∧ r.view ≤ toV)

/-- Lookup of a VID share by view among rows of the decide range. -/
def lookupVid (db : DB) (fromV toV v : Nat) : Option Nat :=
  ((db.vid_share2.filter (fun r => fromV ≤ r.view ∧ r.view ≤ toV)).find?
    (fun r => r.view = v)).map VidRow.data

/-- Lookup of a DA proposal's encoded transactions by view among rows of the
decide range. -/
def lookupDa (db : DB) (fromV toV v : Nat) : Option (List Nat) :=
  ((db.da_proposal2.filter (fun r => fromV ≤ r.view ∧ r.view ≤ toV)).find?
    (fun r => r.view = v)).map DaRow.encodedTxs

/-- Lookup into the epoch-keyed map of in-range state certs (the source
builds the map keyed by the certificate's epoch and then indexes it with the
leaf's view number). -/
def lookupStateCert (db : DB) (fromV toV k : Nat) : Option Nat :=
  ((stateCertsInRange db fromV toV).find? (fun r => r.epoch = k)).map
    StateCertRow.cert

/-- `Payload::from_bytes` on the DA proposal's encoded transactions, kept as
the identity on the byte list (the reconstruction itself is opaque here). -/
def payloadFromBytes (txs : List Nat) : List Nat := txs

/-- Payload filling at decide time: use the DA proposal when present, the
empty payload for the genesis view, and otherwise leave the leaf as stored. -/
def fillFromDa (da : Option (List Nat)) (leaf : Leaf2) : Leaf2 :=
  match da with
  | some txs => { leaf with payload := some (payloadFromBytes txs) }
  | none => if leaf.view = 0 then { leaf with payload := some [] } else leaf

/-- One entry of the decide event's leaf chain (`LeafInfo`): the defaulted
`state`/`delta` fields are omitted as they carry no information. -/
structure LeafInfoOut where
  leaf : Leaf2
  vidShare : Option Nat
  stateCert : Option Nat
deriving Repr, DecidableEq

/-- A `Decide` event: view number, leaf chain in reverse chronological
order, and the QC of the last leaf of the chain. -/
structure Event where
  view_number : Nat
  leaf_chain : List LeafInfoOut
  qc : QC
deriving Repr, DecidableEq

/-- Build the event's leaf chain: reverse the collected chain and attach the
VID share, reconstructed payload and state cert per leaf. -/
def buildLeafChain (db : DB) (chain : List AnchorRow) (fromV toV : Nat) :
    List LeafInfoOut :=
  chain.reverse.map (fun r =>
    { leaf := fillFromDa (lookupDa db fromV toV r.leaf.view) r.leaf,
      vidShare := lookupVid db fromV toV r.leaf.view,
      stateCert := lookupStateCert db fromV toV r.leaf.view })

/-- The view range `[leaves[0].view_number(), leaves[last].view_number()]`
covered by one decide event, when the chain is nonempty. -/
def decideRange (db : DB) : Option (Nat × Nat) :=
  match (decideChain db).head?, (decideChain db).getLast? with
  | some h, some l => some (h.leaf.view, l.leaf.view)
  | _, _ => none

/-- `leaves[0].view_number()`: the view of the first leaf of the chain
(only used when the chain is nonempty). -/
def chainFromView (db : DB) : Nat :=
  (((decideChain db).head?).map (fun r => r.leaf.view)).getD 0

/-- The event one iteration of the generator's loop would emit, if any:
`Decide` with the reversed filled chain and `final_qc`, the QC accompanying
the last accepted leaf. -/
def decideEventOf (db : DB) : Option Event :=
  match (decideChain db).getLast? with
  | none => none
  | some last =>
    some { view_number := last.leaf.view,
           leaf_chain := buildLeafChain db (decideChain db) (chainFromView db)
             last.leaf.view,
           qc := last.qc }

/-- Upsert one row into `finalized_state_cert` keyed by epoch. -/
def upsertFinCert (tbl : List FinStateCertRow) (r : FinStateCertRow) :
    List FinStateCertRow :=
  if tbl.any (fun x => x.epoch = r.epoch) then
    tbl.map (fun x => if x.epoch = r.epoch then r else x)
  else tbl ++ [r]

/-- The write transaction at the end of one generator iteration: bump
`last_processed_view` to `to_view`, upsert the finalized state certs, delete
the `[from_view, to_view]` range from the VID, DA, quorum-proposal,
quorum-certificate and state-cert tables, and delete `anchor_leaf2` rows in
the half-open `[from_view, to_view)` range only. -/
def applyDecideWrites (db : DB) (fromV toV : Nat) : DB :=
  { anchor_leaf2 :=
      db.anchor_leaf2.filter (fun r => ¬ (fromV ≤ r.view ∧ r.view < toV)),
    vid_share2 :=
      db.vid_share2.filter (fun r => ¬ (fromV ≤ r.view ∧ r.view ≤ toV)),
    da_proposal2 :=
      db.da_proposal2.filter (fun r => ¬ (fromV ≤ r.view ∧ r.view ≤ toV)),
    quorum_proposals2 :=
      db.quorum_proposals2.filter (fun r => ¬ (fromV ≤ r.view ∧ r.view ≤ toV)),
    quorum_certificate2 :=
      db.quorum_certificate2.filter (fun r => ¬ (fromV ≤ r.view ∧ r.view ≤ toV)),
    state_cert :=
      db.state_cert.filter (fun r => ¬ (fromV ≤ r.view ∧ r.view ≤ toV)),
    finalized_state_cert :=
      (stateCertsInRange db fromV toV).foldl
        (fun t r => upsertFinCert t ⟨r.epoch, r.cert⟩) db.finalized_state_cert,
    event_stream := some toV }

/-- Result of one iteration of the generator's loop. -/
inductive StepResult where
  | noEvent (db : DB)
  | consumerError (db : DB)
  | emitted (db : DB) (ev : Event)
deriving Repr, DecidableEq

/-- One iteration of the loop in `generate_decide_events`: collect the
chain; with no accepted leaf, stop with nothing emitted and nothing deleted;
otherwise call the consumer and, only on its success, perform the marker
update and deletions.  Before the consumer call the iteration only reads, so
a consumer error leaves the database exactly as it was. -/
def decideStep (consumer : Event → Except Unit Unit) (db : DB) : StepResult :=
  match (decideChain db).getLast? with
  | none => .noEvent db
  | some last =>
    let ev : Event :=
      { view_number := last.leaf.view,
        leaf_chain := buildLeafChain db (decideChain db) (chainFromView db)
          last.leaf.view,
        qc := last.qc }
    match consumer ev with
    | .error _ => .consumerError db
    | .ok _ => .emitted (applyDecideWrites db (chainFromView db) last.leaf.view) ev

/-- `generate_decide_events`: iterate `decideStep` until no chain remains; a
consumer error aborts the whole call (the error value carries the state at
the abort, which the caller keeps).  The loop terminates in the source; here
it is fuel-indexed. -/
def generateDecideEvents (consumer : Event → Except Unit Unit) :
    Nat → DB → Except DB (DB × List Event)
  | 0, db => .ok (db, [])
  | fuel + 1, db =>
    match decideStep consumer db with
    | .noEvent db' => .ok (db', [])
    | .consumerError db' => .error db'
    | .emitted db' ev =>
      (generateDecideEvents consumer fuel db').map (fun p => (p.1, ev :: p.2))

/-! ## append_decided_leaves (sql.rs) -/

/-- The caller-supplied payload of `append_decided_leaves`: a `LeafInfo`
(only its leaf matters to the leaf storage path). -/
structure LeafInfoIn where
  leaf : Leaf2
deriving Repr, DecidableEq

/-- `unfill_block_payload`: drop the embedded payload before serializing. -/
def unfill_block_payload (l : Leaf2) : Leaf2 :=
  { l with payload := none }

/-- Length-prefixed encoding of an optional payload. -/
def encodeOptPayload : Option (List Nat) → List Nat
  | none => [0]
  | some p => 1 :: p.length :: p

/-- Deterministic binary encoding of a leaf (the bincode serialization). -/
def encodeLeaf (l : Leaf2) : List Nat :=
  l.view :: l.height :: encodeOptPayload l.payload

/-- Deterministic binary encoding of a QC. -/
def encodeQC (qc : QC) : List Nat :=
  [qc.view, qc.leafCommit]

/-- Decoding of an optional payload, inverse to `encodeOptPayload`. -/
def decodeOptPayload : List Nat → Option (Option (List Nat))
  | 0 :: rest => if rest = [] then some none else none
  | 1 :: n :: rest => if rest.length = n then some (some rest) else none
  | _ => none

/-- Decoding of a leaf, inverse to `encodeLeaf`. -/
def decodeLeaf : List Nat → Option Leaf2
  | v :: h :: rest => (decodeOptPayload rest).map (fun p => ⟨v, h, p⟩)
  | _ => none

/-- The `values` computed by `append_decided_leaves` before its upsert: for
each `(LeafInfo, QC)` pair, the key is the QC's view number, and the stored
blobs are the serializations of the payload-stripped leaf and of the QC. -/
def appendValues (chain : List (LeafInfoIn × QC)) :
    List (Nat × List Nat × List Nat) :=
  chain.map (fun p =>
    (p.2.view, encodeLeaf (unfill_block_payload p.1.leaf), encodeQC p.2))

/-- The deserialized form of one upserted `anchor_leaf2` row. -/
def anchorRowOf (p : LeafInfoIn × QC) : AnchorRow :=
  { view := p.2.view, leaf := unfill_block_payload p.1.leaf, qc := p.2 }

/-- Upsert one row into `anchor_leaf2` keyed by view. -/
def upsertAnchorRow (tbl : List AnchorRow) (r : AnchorRow) : List AnchorRow :=
  if tbl.any (fun x => x.view = r.view) then
    tbl.map (fun x => if x.view = r.view then r else x)
  else tbl ++ [r]

/-- The first write transaction of `append_decided_leaves`: upsert all the
new leaf rows. -/
def upsertDecidedRows (db : DB) (chain : List (LeafInfoIn × QC)) : DB :=
  { db with
    anchor_leaf2 := (chain.map anchorRowOf).foldl upsertAnchorRow db.anchor_leaf2 }

/-! ## Consensus pruner (prune / prune_to_view in sql.rs) -/

/-- The garbage-collection thresholds (`ConsensusPruningOptions`). -/
structure GcOpt where
  target_retention : Nat
  minimum_retention : Nat
  target_usage : Nat
deriving Repr, DecidableEq

/-- The default pruning parameters of `ConsensusPruningOptions`. -/
def defaultGcOpt : GcOpt :=
  { target_retention := 302000, minimum_retention := 130000,
    target_usage := 1000000000 }

/-- `prune_to_view`: when the threshold is 0 return at once (the whole chain
is younger than the retention period); otherwise delete from each of
`anchor_leaf2`, `vid_share2`, `da_proposal2`, `quorum_proposals2` and
`quorum_certificate2` every row with view below the threshold. -/
def prune_to_view (db : DB) (v : Nat) : DB :=
  if v = 0 then db
  else
    { db with
      anchor_leaf2 := db.anchor_leaf2.filter (fun r => ¬ r.view < v),
      vid_share2 := db.vid_share2.filter (fun r => ¬ r.view < v),
      da_proposal2 := db.da_proposal2.filter (fun r => ¬ r.view < v),
      quorum_proposals2 := db.quorum_proposals2.filter (fun r => ¬ r.view < v),
      quorum_certificate2 := db.quorum_certificate2.filter (fun r => ¬ r.view < v) }

/-- `prune`: first prune to the target-retention threshold (saturating
subtraction), then measure storage usage (the measurement is an oracle
parameter, evaluated on the state after the first pruning pass, as the query
runs in the same transaction), and prune again to the minimum-retention
threshold exactly when the usage exceeds the target usage. -/
def prune (db : DB) (gc : GcOpt) (usage : DB → Nat) (curView : Nat) : DB :=
  let db1 := prune_to_view db (curView - gc.target_retention)
  if gc.target_usage < usage db1 then
    prune_to_view db1 (curView - gc.minimum_retention)
  else db1

/-- `append_decided_leaves`: durably upsert the leaves and QCs in their own
transaction, then run the decide-event generator; a generator failure (for
example a consumer error) is logged and the call still succeeds, skipping
the pruner; on generator success the pruner runs.  The boolean result is the
success of the whole call. -/
def append_decided_leaves (db : DB) (gc : GcOpt) (usage : DB → Nat)
    (view : Nat) (chain : List (LeafInfoIn × QC))
    (consumer : Event → Except Unit Unit) (fuel : Nat) : DB × Bool :=
  let db1 := upsertDecidedRows db chain
  match generateDecideEvents consumer fuel db1 with
  | .error dbE => (dbE, true)
  | .ok (db2, _) => (prune db2 gc usage view, true)

/-- Well-formedness of a stored DRB blob: when present it has the 32 bytes
expected by the fixed-size conversion in `load_start_epoch_info`. -/
def drbWellFormed (r : EpochDrbRootRow) : Bool :=
  match r.drb_result with
  | some d => d.length = 32
  | none => true

/-- The `InitializerEpochInfo` a single row contributes, when its DRB result
is present. -/
def epochInfoOf (r : EpochDrbRootRow) : Option InitializerEpochInfo :=
  r.drb_result.map (fun d => ⟨r.epoch, d, r.block_header⟩)

/-! ## Helper lemmas -/

theorem record_action_le (hvv : Option Nat) (v : Nat) (a : HotShotAction)
    (cur : Nat) (h : hvv = some cur) :
    ∃ n, record_action hvv v a = some n ∧ cur ≤ n := by
  subst h
  cases a with
  | propose => exact ⟨max cur v, rfl, le_max_left cur v⟩
  | vote => exact ⟨max cur v, rfl, le_max_left cur v⟩
  | daPropose => exact ⟨cur, rfl, le_refl cur⟩
  | daVote => exact ⟨cur, rfl, le_refl cur⟩
  | upgradeVote => exact ⟨cur, rfl, le_refl cur⟩

theorem runActions_mono (acts : List (Nat × HotShotAction)) :
    ∀ (hvv : Option Nat) (cur : Nat), hvv = some cur →
      ∃ n, runActions hvv acts = some n ∧ cur ≤ n := by
  induction acts with
  | nil =>
    intro hvv cur h
    exact ⟨cur, by simp [runActions, h], le_refl cur⟩
  | cons p rest ih =>
    intro hvv cur h
    obtain ⟨m, hm, hcm⟩ := record_action_le hvv p.1 p.2 cur h
    obtain ⟨n, hn, hmn⟩ := ih (record_action hvv p.1 p.2) m hm
    refine ⟨n, ?_, le_trans hcm hmn⟩
    simpa [runActions, List.foldl] using hn

theorem reachable_invariant (s : CoordState) (h : Reachable s) :
    ∀ e, s.inflight.count e ≤ 1 ∧ (e ∈ s.inflight → e ∈ s.catchupMap) := by
  induction h with
  | init => intro e; simp
  | start s' e' hr ih =>
    intro e
    unfold tryStartCatchup
    by_cases hc : s'.catchupMap.contains e' = true
    · rw [if_pos hc]
      exact ih e
    · rw [if_neg hc]
      have hnot : e' ∉ s'.inflight := by
        intro hmem
        exact hc (List.elem_iff.mpr ((ih e').2 hmem))
      refine ⟨?_, ?_⟩
      · show List.count e (e' :: s'.inflight) ≤ 1
        rw [List.count_cons]
        by_cases he : e = e'
        · subst he
          have h0 : s'.inflight.count e = 0 := List.count_eq_zero.mpr hnot
          simp [h0]
        · have hbe : (e' == e) = false := by
            simp only [beq_eq_false_iff_ne, ne_eq]
            exact fun hh => he hh.symm
          simp only [hbe, if_false, Bool.false_eq_true, Nat.add_zero]
          exact (ih e).1
      · intro hmem
        rcases List.mem_cons.mp hmem with h1 | h1
        · exact List.mem_cons.mpr (Or.inl h1)
        · exact List.mem_cons.mpr (Or.inr ((ih e).2 h1))
  | finish s' e' ok hr hin ih =>
    intro e
    unfold finishCatchup catchupMapAfterBroadcast
    refine ⟨?_, ?_⟩
    · have h1 := (ih e).1
      have h2 : (s'.inflight.erase e').count e ≤ s'.inflight.count e := by
        rw [List.count_erase]
        exact Nat.sub_le _ _
      exact le_trans h2 h1
    · intro hmem
      have hmem' : e ∈ s'.inflight := List.mem_of_mem_erase hmem
      have hmap : e ∈ s'.catchupMap := (ih e).2 hmem'
      cases ok with
      | true => simpa using hmap
      | false =>
        show e ∈ if (false = true) then s'.catchupMap
          else s'.catchupMap.filter (fun x => x ≠ e')
        rw [if_neg (by simp)]
        rw [List.mem_filter]
        refine ⟨hmap, ?_⟩
        simp only [decide_eq_true_eq]
        intro he
        subst he
        have h1 := (ih e).1
        have h4 : e ∉ s'.inflight.erase e := by
          intro hmm
          have h5 := List.one_le_count_iff.mpr hmm
          have h6 : (s'.inflight.erase e).count e = s'.inflight.count e - 1 := by
            rw [List.count_erase]
            simp
          have h7 := List.one_le_count_iff.mpr hmem'
          omega
        exact h4 hmem

theorem prune_to_view_mem (db : DB) (v : Nat) :
    (∀ r : AnchorRow, r ∈ (prune_to_view db v).anchor_leaf2 ↔
        r ∈ db.anchor_leaf2 ∧ ¬ r.view < v) ∧
    (∀ r : VidRow, r ∈ (prune_to_view db v).vid_share2 ↔
        r ∈ db.vid_share2 ∧ ¬ r.view < v) ∧
    (∀ r : DaRow, r ∈ (prune_to_view db v).da_proposal2 ↔
        r ∈ db.da_proposal2 ∧ ¬ r.view < v) ∧
    (∀ r : QpRow, r ∈ (prune_to_view db v).quorum_proposals2 ↔
        r ∈ db.quorum_proposals2 ∧ ¬ r.view < v) ∧
    (∀ r : QcRow, r ∈ (prune_to_view db v).quorum_certificate2 ↔
        r ∈ db.quorum_certificate2 ∧ ¬ r.view < v) ∧
    (prune_to_view db v).state_cert = db.state_cert ∧
    (prune_to_view db v).finalized_state_cert = db.finalized_state_cert ∧
    (prune_to_view db v).event_stream = db.event_stream := by
  unfold prune_to_view
  by_cases h : v = 0
  · subst h
    simp [Nat.not_lt_zero]
  · simp [h, List.mem_filter]

/-! ## C8: record_action is a MAX-monotonic register -/

/-- C8: `record_action` with `Propose` or `Vote` MAX-upserts
`highest_voted_view` (absent row: the view itself; present row: the maximum
of the stored and the new view), so the stored value never decreases under
any sequence of calls; every other action succeeds leaving the state
unchanged. -/
theorem record_action_spec :
    (∀ (cur v : Nat), record_action (some cur) v .propose = some (max cur v) ∧
        record_action (some cur) v .vote = some (max cur v)) ∧
    (∀ v : Nat, record_action none v .propose = some v ∧
        record_action none v .vote = some v) ∧
    (∀ (hvv : Option Nat) (v : Nat) (a : HotShotAction),
        a ≠ .propose → a ≠ .vote → record_action hvv v a = hvv) ∧
    (∀ (acts : List (Nat × HotShotAction)) (cur : Nat),
        ∃ n, runActions (some cur) acts = some n ∧ cur ≤ n) := by
  refine ⟨fun cur v => ⟨rfl, rfl⟩, fun v => ⟨rfl, rfl⟩, ?_, ?_⟩
  · intro hvv v a ha1 ha2
    cases a with
    | propose => exact absurd rfl ha1
    | vote => exact absurd rfl ha2
    | daPropose => rfl
    | daVote => rfl
    | upgradeVote => rfl
  · intro acts cur
    exact runActions_mono acts (some cur) cur rfl

/-- Witness for C8 at concrete inputs. -/
theorem record_action_spec_witness :
    record_action (some 3) 7 .daVote = some 3 ∧
    record_action (some 3) 7 .vote = some 7 := by
  refine ⟨record_action_spec.2.2.1 (some 3) 7 .daVote (by decide) (by decide), ?_⟩
  have h := (record_action_spec.1 3 7).2
  simpa using h

/-! ## C4: catchup_map entry removal after broadcast -/

/-- C4 counterexample: after a successful catchup for epoch 5 broadcasts its
result, the `catchup_map` entry for 5 is NOT removed: the source removes the
entry only in the failure branch (`if let Err(err) = result`). -/
theorem catchup_map_kept_on_success :
    catchupMapAfterBroadcast [5] 5 true = [5] ∧
    5 ∈ catchupMapAfterBroadcast [5] 5 true := by
  exact ⟨rfl, by decide⟩

/-- C4 amended: after a catchup task broadcasts its result, the
`catchup_map` entry is removed exactly on failure; on success the entry
remains in the map unchanged. -/
theorem catchup_map_removed_only_on_failure :
    (∀ (m : List Nat) (e : Nat), catchupMapAfterBroadcast m e true = m) ∧
    (∀ (m : List Nat) (e : Nat), e ∉ catchupMapAfterBroadcast m e false) ∧
    (∀ (m : List Nat) (e x : Nat), x ∈ catchupMapAfterBroadcast m e false →
        x ∈ m ∧ x ≠ e) := by
  refine ⟨fun m e => rfl, ?_, ?_⟩
  · intro m e hmem
    simp only [catchupMapAfterBroadcast, if_false, Bool.false_eq_true,
      List.mem_filter, decide_eq_true_eq] at hmem
    exact hmem.2 rfl
  · intro m e x hmem
    simp only [catchupMapAfterBroadcast, if_false, Bool.false_eq_true,
      List.mem_filter, decide_eq_true_eq] at hmem
    exact hmem

/-- Witness for C4's amended theorem at concrete inputs. -/
theorem catchup_map_removed_only_on_failure_witness :
    catchupMapAfterBroadcast [5] 5 true = [5] ∧
    5 ∉ catchupMapAfterBroadcast [5] 5 false := by
  exact ⟨catchup_map_removed_only_on_failure.1 [5] 5,
    catchup_map_removed_only_on_failure.2.1 [5] 5⟩

/-! ## C5: vid-share migration lacks ON CONFLICT DO NOTHING -/

/-- C5: evaluating the migrations at the crash-resume state: the legacy
`vid_share` table holds one row at view 0, the v2 table already holds the
converted row (the batch committed), and the `epoch_migration` marker is
`(completed = false, migrated_rows = 0)` (the process died before the
completion upsert).  Resuming re-selects the row (`view >= 0`) and
re-inserts it: `migrate_vid_shares` fails with a primary-key constraint
violation because its bulk insert lacks ON CONFLICT DO NOTHING, while the
otherwise identical `migrate_anchor_leaf` succeeds as a no-op. -/
theorem vid_share_migration_resume_fails :
    migrate_vid_shares (fun d => d) 10000 [⟨0, 5⟩] [(0, 5)] ⟨false, 0⟩ 3 =
      .error () ∧
    migrate_anchor_leaf (fun d => d) 10000 [⟨0, 5⟩] [(0, 5)] ⟨false, 0⟩ 3 =
      .ok ([(0, 5)], ⟨true, 0⟩) := by
  exact ⟨rfl, rfl⟩

/-! ## C7: dual-threshold pruning -/

/-- C7: `prune` first deletes from the five prune tables all rows with view
below `curView − target_retention` (saturating, so nothing is deleted when
`curView ≤ target_retention`), then measures usage on the pruned state, and
deletes rows below `curView − minimum_retention` from the same tables if and
only if the usage exceeds `target_usage`; the state-cert tables and the
event-stream marker are untouched. -/
theorem prune_spec (db : DB) (gc : GcOpt) (usage : DB → Nat) (curView : Nat) :
    (∀ r : AnchorRow, r ∈ (prune db gc usage curView).anchor_leaf2 ↔
        r ∈ db.anchor_leaf2 ∧ ¬ r.view < curView - gc.target_retention ∧
          (gc.target_usage <
              usage (prune_to_view db (curView - gc.target_retention)) →
            ¬ r.view < curView - gc.minimum_retention)) ∧
    (∀ r : VidRow, r ∈ (prune db gc usage curView).vid_share2 ↔
        r ∈ db.vid_share2 ∧ ¬ r.view < curView - gc.target_retention ∧
          (gc.target_usage <
              usage (prune_to_view db (curView - gc.target_retention)) →
            ¬ r.view < curView - gc.minimum_retention)) ∧
    (∀ r : DaRow, r ∈ (prune db gc usage curView).da_proposal2 ↔
        r ∈ db.da_proposal2 ∧ ¬ r.view < curView - gc.target_retention ∧
          (gc.target_usage <
              usage (prune_to_view db (curView - gc.target_retention)) →
            ¬ r.view < curView - gc.minimum_retention)) ∧
    (∀ r : QpRow, r ∈ (prune db gc usage curView).quorum_proposals2 ↔
        r ∈ db.quorum_proposals2 ∧ ¬ r.view < curView - gc.target_retention ∧
          (gc.target_usage <
              usage (prune_to_view db (curView - gc.target_retention)) →
            ¬ r.view < curView - gc.minimum_retention)) ∧
    (∀ r : QcRow, r ∈ (prune db gc usage curView).quorum_certificate2 ↔
        r ∈ db.quorum_certificate2 ∧ ¬ r.view < curView - gc.target_retention ∧
          (gc.target_usage <
              usage (prune_to_view db (curView - gc.target_retention)) →
            ¬ r.view < curView - gc.minimum_retention)) ∧
    (prune db gc usage curView).state_cert = db.state_cert ∧
    (prune db gc usage curView).finalized_state_cert = db.finalized_state_cert ∧
    (prune db gc usage curView).event_stream = db.event_stream ∧
    (curView ≤ gc.target_retention →
        prune_to_view db (curView - gc.target_retention) = db) := by
  have hm1 := prune_to_view_mem db (curView - gc.target_retention)
  have hm2 := prune_to_view_mem (prune_to_view db (curView - gc.target_retention))
    (curView - gc.minimum_retention)
  by_cases hu : gc.target_usage <
      usage (prune_to_view db (curView - gc.target_retention))
  · simp only [prune]
    rw [if_pos hu]
    refine ⟨?_, ?_, ?_, ?_, ?_, ?_, ?_, ?_, ?_⟩
    · intro r
      rw [(hm2.1 r), (hm1.1 r)]
      constructor
      · rintro ⟨⟨h1, h2⟩, h3⟩
        exact ⟨h1, h2, fun _ => h3⟩
      · rintro ⟨h1, h2, h3⟩
        exact ⟨⟨h1, h2⟩, h3 hu⟩
    · intro r
      rw [(hm2.2.1 r), (hm1.2.1 r)]
      constructor
      · rintro ⟨⟨h1, h2⟩, h3⟩
        exact ⟨h1, h2, fun _ => h3⟩
      · rintro ⟨h1, h2, h3⟩
        exact ⟨⟨h1, h2⟩, h3 hu⟩
    · intro r
      rw [(hm2.2.2.1 r), (hm1.2.2.1 r)]
      constructor
      · rintro ⟨⟨h1, h2⟩, h3⟩
        exact ⟨h1, h2, fun _ => h3⟩
      · rintro ⟨h1, h2, h3⟩
        exact ⟨⟨h1, h2⟩, h3 hu⟩
    · intro r
      rw [(hm2.2.2.2.1 r), (hm1.2.2.2.1 r)]
      constructor
      · rintro ⟨⟨h1, h2⟩, h3⟩
        exact ⟨h1, h2, fun _ => h3⟩
      · rintro ⟨h1, h2, h3⟩
        exact ⟨⟨h1, h2⟩, h3 hu⟩
    · intro r
      rw [(hm2.2.2.2.2.1 r), (hm1.2.2.2.2.1 r)]
      constructor
      · rintro ⟨⟨h1, h2⟩, h3⟩
        exact ⟨h1, h2, fun _ => h3⟩
      · rintro ⟨h1, h2, h3⟩
        exact ⟨⟨h1, h2⟩, h3 hu⟩
    · rw [hm2.2.2.2.2.2.1, hm1.2.2.2.2.2.1]
    · rw [hm2.2.2.2.2.2.2.1, hm1.2.2.2.2.2.2.1]
    · rw [hm2.2.2.2.2.2.2.2, hm1.2.2.2.2.2.2.2]
    · intro hle
      rw [Nat.sub_eq_zero_of_le hle]
      simp [prune_to_view]
  · simp only [prune]
    rw [if_neg hu]
    refine ⟨?_, ?_, ?_, ?_, ?_, ?_, ?_, ?_, ?_⟩
    · intro r
      rw [(hm1.1 r)]
      exact ⟨fun ⟨h1, h2⟩ => ⟨h1, h2, fun hx => absurd hx hu⟩,
        fun ⟨h1, h2, _⟩ => ⟨h1, h2⟩⟩
    · intro r
      rw [(hm1.2.1 r)]
      exact ⟨fun ⟨h1, h2⟩ => ⟨h1, h2, fun hx => absurd hx hu⟩,
        fun ⟨h1, h2, _⟩ => ⟨h1, h2⟩⟩
    · intro r
      rw [(hm1.2.2.1 r)]
      exact ⟨fun ⟨h1, h2⟩ => ⟨h1, h2, fun hx => absurd hx hu⟩,
        fun ⟨h1, h2, _⟩ => ⟨h1, h2⟩⟩
    · intro r
      rw [(hm1.2.2.2.1 r)]
      exact ⟨fun ⟨h1, h2⟩ => ⟨h1, h2, fun hx => absurd hx hu⟩,
        fun ⟨h1, h2, _⟩ => ⟨h1, h2⟩⟩
    · intro r
      rw [(hm1.2.2.2.2.1 r)]
      exact ⟨fun ⟨h1, h2⟩ => ⟨h1, h2, fun hx => absurd hx hu⟩,
        fun ⟨h1, h2, _⟩ => ⟨h1, h2⟩⟩
    · exact hm1.2.2.2.2.2.1
    · exact hm1.2.2.2.2.2.2.1
    · exact hm1.2.2.2.2.2.2.2
    · intro hle
      rw [Nat.sub_eq_zero_of_le hle]
      simp [prune_to_view]

/-- Witness for C7 at concrete inputs: with the default retention and a
current view inside the retention window, the first pass deletes nothing. -/
theorem prune_spec_witness :
    prune_to_view
      { anchor_leaf2 := [⟨3, ⟨3, 30, none⟩, ⟨3, 0⟩⟩], vid_share2 := [],
        da_proposal2 := [], quorum_proposals2 := [], quorum_certificate2 := [],
        state_cert := [], finalized_state_cert := [], event_stream := none }
      (5 - defaultGcOpt.target_retention) =
    { anchor_leaf2 := [⟨3, ⟨3, 30, none⟩, ⟨3, 0⟩⟩], vid_share2 := [],
      da_proposal2 := [], quorum_proposals2 := [], quorum_certificate2 := [],
      state_cert := [], finalized_state_cert := [], event_stream := none } := by
  exact (prune_spec
    { anchor_leaf2 := [⟨3, ⟨3, 30, none⟩, ⟨3, 0⟩⟩], vid_share2 := [],
      da_proposal2 := [], quorum_proposals2 := [], quorum_certificate2 := [],
      state_cert := [], finalized_state_cert := [], event_stream := none }
    defaultGcOpt (fun _ => 0) 5).2.2.2.2.2.2.2.2 (by decide)

/-! ## C6: at most one in-flight catchup per epoch -/

/-- C6: when a `catchup_map` entry exists for an epoch without a (randomized)
stake table, `membership_for_epoch` and `stake_table_for_epoch` return the
"catchup already in progress" error and do not spawn; and because the
check-and-insert of `spawn_catchup` runs atomically under the catchup-map
mutex, in every reachable coordinator state each epoch has at most one
in-flight catchup task, and every in-flight epoch has a map entry (so no two
tasks both observe the epoch absent and both insert). -/
theorem catchup_dedup :
    (∀ (hasRand : Nat → Bool) (m : List Nat) (e : Nat),
        m.contains e = true → hasRand e = false →
        membership_for_epoch hasRand m (some e) = (.errInProgress, false)) ∧
    (∀ (hasST : Nat → Bool) (m : List Nat) (e : Nat),
        m.contains e = true → hasST e = false →
        stake_table_for_epoch hasST m (some e) = (.errInProgress, false)) ∧
    (∀ s : CoordState, Reachable s → ∀ e : Nat,
        s.inflight.count e ≤ 1 ∧ (e ∈ s.inflight → e ∈ s.catchupMap)) := by
  refine ⟨?_, ?_, fun s hs e => reachable_invariant s hs e⟩
  · intro hasRand m e hc hr
    simp [membership_for_epoch, hr, hc]
    exact List.elem_iff.mp hc
  · intro hasST m e hc hst
    simp [stake_table_for_epoch, hst, hc]
    exact List.elem_iff.mp hc

/-- Witness for C6 at concrete inputs. -/
theorem catchup_dedup_witness :
    membership_for_epoch (fun _ => false) [5] (some 5) =
      (.errInProgress, false) ∧
    stake_table_for_epoch (fun _ => false) [5] (some 5) =
      (.errInProgress, false) ∧
    (tryStartCatchup (tryStartCatchup ⟨[], []⟩ 5) 5).inflight.count 5 ≤ 1 := by
  refine ⟨catchup_dedup.1 (fun _ => false) [5] 5 (by decide) rfl,
    catchup_dedup.2.1 (fun _ => false) [5] 5 (by decide) rfl, ?_⟩
  exact (catchup_dedup.2.2 (tryStartCatchup (tryStartCatchup ⟨[], []⟩ 5) 5)
    (Reachable.start _ 5 (Reachable.start _ 5 Reachable.init)) 5).1

/-! ## C9: load_start_epoch_info -/

theorem collectEpochRows_eq (rows : List EpochDrbRootRow)
    (hwf : ∀ r ∈ rows, drbWellFormed r = true) :
    collectEpochRows rows = .ok (rows.filterMap epochInfoOf) := by
  induction rows with
  | nil => rfl
  | cons r rs ih =>
    have hr : drbWellFormed r = true := hwf r (List.mem_cons_self r rs)
    have ih' := ih (fun x hx => hwf x (List.mem_cons_of_mem r hx))
    cases hd : r.drb_result with
    | none =>
      have hp : processEpochRow r = .ok none := by
        simp [processEpochRow, hd]
      have he : epochInfoOf r = none := by
        simp [epochInfoOf, hd]
      simp [collectEpochRows, hp, he, ih']
    | some d =>
      have hlen : d.length = 32 := by
        simpa [drbWellFormed, hd] using hr
      have hp : processEpochRow r =
          .ok (some ⟨r.epoch, d, r.block_header⟩) := by
        simp [processEpochRow, hd, hlen]
      have he : epochInfoOf r = some ⟨r.epoch, d, r.block_header⟩ := by
        simp [epochInfoOf, hd]
      simp [collectEpochRows, hp, he, ih', Except.map]

theorem filterMap_epochInfoOf_pairwise (l : List EpochDrbRootRow)
    (h : l.Pairwise (fun a b => a.epoch < b.epoch)) :
    (l.filterMap epochInfoOf).Pairwise (fun a b => a.epoch < b.epoch) := by
  rw [List.pairwise_filterMap]
  refine h.imp ?_
  intro a b hab
  intro x hx y hy
  cases ha : a.drb_result with
  | none => simp [epochInfoOf, ha] at hx
  | some d =>
    cases hb : b.drb_result with
    | none => simp [epochInfoOf, hb] at hy
    | some d' =>
      simp only [epochInfoOf, ha, hb, Option.map_some', Option.mem_def,
        Option.some.injEq] at hx hy
      rw [← hx, ← hy]
      exact hab

/-- C9: under the query's epoch-descending order, `load_start_epoch_info`
succeeds, returns exactly the entries of the (at most) `limit` highest-epoch
rows whose DRB result is present, in ascending epoch order; rows with an
absent DRB result are silently skipped (they produce no entry and no error)
while still counting toward the `limit` rows selected. -/
theorem load_start_epoch_info_spec (tbl : List EpochDrbRootRow) (limit : Nat)
    (hsorted : tbl.Pairwise (fun a b => b.epoch < a.epoch))
    (hwf : ∀ r ∈ tbl.take limit, drbWellFormed r = true) :
    load_start_epoch_info tbl limit =
      .ok (((tbl.take limit).reverse).filterMap epochInfoOf) ∧
    (((tbl.take limit).reverse).filterMap epochInfoOf).length ≤ limit ∧
    (((tbl.take limit).reverse).filterMap epochInfoOf).Pairwise
      (fun a b => a.epoch < b.epoch) ∧
    (∀ i ∈ ((tbl.take limit).reverse).filterMap epochInfoOf,
        ∃ r ∈ tbl.take limit, r.epoch = i.epoch ∧
          r.drb_result = some i.drb_result ∧ r.block_header = i.block_header) := by
  refine ⟨?_, ?_, ?_, ?_⟩
  · unfold load_start_epoch_info
    exact collectEpochRows_eq _ (fun r hr => hwf r (List.mem_reverse.mp hr))
  · calc (((tbl.take limit).reverse).filterMap epochInfoOf).length
        ≤ ((tbl.take limit).reverse).length :=
          List.length_filterMap_le _ _
      _ = (tbl.take limit).length := List.length_reverse _
      _ ≤ limit := by rw [List.length_take]; exact min_le_left _ _
  · refine filterMap_epochInfoOf_pairwise _ ?_
    rw [List.pairwise_reverse]
    exact List.Pairwise.sublist (List.take_sublist limit tbl) hsorted
  · intro i hi
    obtain ⟨r, hr, hri⟩ := List.mem_filterMap.mp hi
    refine ⟨r, List.mem_reverse.mp hr, ?_⟩
    cases hd : r.drb_result with
    | none => simp [epochInfoOf, hd] at hri
    | some d =>
      simp only [epochInfoOf, hd, Option.map_some', Option.some.injEq] at hri
      rw [← hri]
      exact ⟨rfl, rfl, rfl⟩

/-- Witness for C9 at concrete inputs: three rows with epochs 10, 9, 8, the
middle one missing its DRB result, limit 2: the row at epoch 9 is silently
skipped and only epoch 10 (the DRB-present row among the top two) is
returned. -/
theorem load_start_epoch_info_spec_witness :
    load_start_epoch_info
      [⟨10, some (List.replicate 32 0), none⟩, ⟨9, none, some 3⟩,
       ⟨8, some (List.replicate 32 1), none⟩] 2 =
    .ok [⟨10, List.replicate 32 0, none⟩] := by
  exact (load_start_epoch_info_spec
    [⟨10, some (List.replicate 32 0), none⟩, ⟨9, none, some 3⟩,
     ⟨8, some (List.replicate 32 1), none⟩] 2 (by decide) (by decide)).1

/-! ## Helper lemmas for the decide-event machinery -/

theorem isPrefOf_sublist {p l : List AnchorRow} (h : isPrefOf p l) :
    p.Sublist l := by
  obtain ⟨t, ht⟩ := h
  rw [← ht]
  exact List.sublist_append_left p t

theorem collectChain_isPref (p : Option Nat) (rows : List AnchorRow) :
    isPrefOf (collectChain p rows) rows := by
  induction rows generalizing p with
  | nil =>
    refine ⟨[], ?_⟩
    cases p <;> simp [collectChain]
  | cons r rs ih =>
    cases p with
    | none =>
      obtain ⟨t, ht⟩ := ih (some r.leaf.height)
      exact ⟨t, by simp only [collectChain, List.cons_append, ht]⟩
    | some pp =>
      by_cases h : r.leaf.height = pp + 1
      · obtain ⟨t, ht⟩ := ih (some r.leaf.height)
        refine ⟨t, ?_⟩
        simp only [collectChain, if_pos h, List.cons_append, ht]
      · refine ⟨r :: rs, ?_⟩
        simp only [collectChain, if_neg h, List.nil_append]

theorem collectChain_consec (p : Option Nat) (rows : List AnchorRow) :
    consecFrom p (collectChain p rows) = true := by
  induction rows generalizing p with
  | nil => cases p <;> rfl
  | cons r rs ih =>
    cases p with
    | none =>
      simp only [collectChain, consecFrom]
      exact ih (some r.leaf.height)
    | some pp =>
      by_cases h : r.leaf.height = pp + 1
      · simp only [collectChain, if_pos h, consecFrom]
        exact ih (some r.leaf.height)
      · simp only [collectChain, if_neg h, consecFrom]

theorem collectChain_maximal (q : List AnchorRow) :
    ∀ (p : Option Nat) (rows : List AnchorRow), isPrefOf q rows →
      consecFrom p q = true → isPrefOf q (collectChain p rows) := by
  induction q with
  | nil =>
    intro p rows _ _
    exact ⟨collectChain p rows, rfl⟩
  | cons x q' ih =>
    intro p rows hpref hcon
    obtain ⟨t, ht⟩ := hpref
    have hrows : rows = x :: (q' ++ t) := by
      rw [← ht]
      rfl
    subst hrows
    cases p with
    | none =>
      have hcon' : consecFrom (some x.leaf.height) q' = true := by
        simpa only [consecFrom] using hcon
      obtain ⟨t', ht'⟩ := ih (some x.leaf.height) (q' ++ t) ⟨t, rfl⟩ hcon'
      refine ⟨t', ?_⟩
      simp only [collectChain, List.cons_append, ht']
    | some pp =>
      by_cases hx : x.leaf.height = pp + 1
      · have hcon' : consecFrom (some x.leaf.height) q' = true := by
          simpa only [consecFrom, if_pos hx] using hcon
        obtain ⟨t', ht'⟩ := ih (some x.leaf.height) (q' ++ t) ⟨t, rfl⟩ hcon'
        refine ⟨t', ?_⟩
        simp only [collectChain, if_pos hx, List.cons_append, ht']
      · exfalso
        simp only [consecFrom, if_neg hx] at hcon
        exact Bool.false_ne_true hcon

theorem decideStep_noEvent (consumer : Event → Except Unit Unit) (db : DB)
    (h : (decideChain db).getLast? = none) :
    decideStep consumer db = .noEvent db := by
  simp only [decideStep, h]

theorem decideStep_emitted (consumer : Event → Except Unit Unit)
    (db db' : DB) (ev : Event) (h : decideStep consumer db = .emitted db' ev) :
    ∃ last, (decideChain db).getLast? = some last ∧
      decideEventOf db = some ev ∧ ev.qc = last.qc ∧
      db' = applyDecideWrites db (chainFromView db) last.leaf.view := by
  unfold decideStep at h
  rcases hlast : (decideChain db).getLast? with _ | last
  · simp only [hlast] at h
    exact StepResult.noConfusion h
  · simp only [hlast] at h
    rcases hc : consumer ⟨last.leaf.view,
        buildLeafChain db (decideChain db) (chainFromView db) last.leaf.view,
        last.qc⟩ with e | u
    · simp only [hc] at h
      exact StepResult.noConfusion h
    · simp only [hc, StepResult.emitted.injEq] at h
      refine ⟨last, rfl, ?_, ?_, h.1.symm⟩
      · simp only [decideEventOf, hlast, ← h.2]
      · rw [← h.2]

theorem mem_upsertAnchorRow (tbl : List AnchorRow) (x r : AnchorRow)
    (h : r ∈ upsertAnchorRow tbl x) : r ∈ tbl ∨ r = x := by
  unfold upsertAnchorRow at h
  by_cases hc : tbl.any (fun z => z.view = x.view) = true
  · rw [if_pos hc] at h
    obtain ⟨y, hy, hyx⟩ := List.mem_map.mp h
    by_cases hz : y.view = x.view
    · rw [if_pos hz] at hyx
      exact Or.inr hyx.symm
    · rw [if_neg hz] at hyx
      exact Or.inl (hyx ▸ hy)
  · rw [if_neg hc] at h
    rcases List.mem_append.mp h with h1 | h1
    · exact Or.inl h1
    · exact Or.inr (List.mem_singleton.mp h1)

theorem mem_foldl_upsert (rows : List AnchorRow) :
    ∀ (tbl : List AnchorRow) (r : AnchorRow),
      r ∈ rows.foldl upsertAnchorRow tbl → r ∈ tbl ∨ r ∈ rows := by
  induction rows with
  | nil =>
    intro tbl r h
    exact Or.inl h
  | cons s rest ih =>
    intro tbl r h
    rcases ih (upsertAnchorRow tbl s) r h with h1 | h1
    · rcases mem_upsertAnchorRow tbl s r h1 with h2 | h2
      · exact Or.inl h2
      · exact Or.inr (h2 ▸ List.mem_cons_self s rest)
    · exact Or.inr (List.mem_cons_of_mem s h1)

theorem upsertAnchorRow_view_mem (tbl : List AnchorRow) (x : AnchorRow)
    (v : Nat) (h : (∃ y ∈ tbl, y.view = v) ∨ x.view = v) :
    ∃ y ∈ upsertAnchorRow tbl x, y.view = v := by
  unfold upsertAnchorRow
  by_cases hc : tbl.any (fun z => z.view = x.view) = true
  · rw [if_pos hc]
    rcases h with ⟨y, hy, hyv⟩ | hxv
    · by_cases hyx : y.view = x.view
      · refine ⟨x, ?_, by rw [← hyx]; exact hyv⟩
        have := List.mem_map_of_mem
          (fun z => if z.view = x.view then x else z) hy
        simpa only [if_pos hyx] using this
      · refine ⟨y, ?_, hyv⟩
        have := List.mem_map_of_mem
          (fun z => if z.view = x.view then x else z) hy
        simpa only [if_neg hyx] using this
    · obtain ⟨z, hz, hzx⟩ := List.any_eq_true.mp hc
      have hzx' : z.view = x.view := of_decide_eq_true hzx
      refine ⟨x, ?_, hxv⟩
      have := List.mem_map_of_mem
        (fun w => if w.view = x.view then x else w) hz
      simpa only [if_pos hzx'] using this
  · rw [if_neg hc]
    rcases h with ⟨y, hy, hyv⟩ | hxv
    · exact ⟨y, List.mem_append.mpr (Or.inl hy), hyv⟩
    · exact ⟨x, List.mem_append.mpr (Or.inr (List.mem_singleton_self x)), hxv⟩

theorem foldl_upsert_view_mem (rows : List AnchorRow) :
    ∀ (tbl : List AnchorRow) (v : Nat),
      ((∃ y ∈ tbl, y.view = v) ∨ (∃ x ∈ rows, x.view = v)) →
      ∃ y ∈ rows.foldl upsertAnchorRow tbl, y.view = v := by
  induction rows with
  | nil =>
    intro tbl v h
    rcases h with h | ⟨x, hx, _⟩
    · exact h
    · cases hx
  | cons s rest ih =>
    intro tbl v h
    show ∃ y ∈ rest.foldl upsertAnchorRow (upsertAnchorRow tbl s), y.view = v
    apply ih
    rcases h with h | ⟨x, hx, hxv⟩
    · exact Or.inl (upsertAnchorRow_view_mem tbl s v (Or.inl h))
    · rcases List.mem_cons.mp hx with h1 | h1
      · exact Or.inl (upsertAnchorRow_view_mem tbl s v (Or.inr (h1 ▸ hxv)))
      · exact Or.inr ⟨x, h1, hxv⟩

/-! ## C1: the decide-event chain -/

/-- C1: in every iteration of the decide-event generator's loop, the
collected chain is the maximal height-consecutive prefix of the decided
leaves with view greater than `last_processed_view` (taken in ascending view
order), the emitted event's QC is the QC of the last leaf of that chain, and
when no such leaves exist the iteration emits no event, deletes nothing and
the whole run returns at once. -/
theorem decide_event_chain_spec (consumer : Event → Except Unit Unit) (db : DB)
    (hsorted : db.anchor_leaf2.Pairwise (fun a b => a.view < b.view)) :
    (∀ r, r ∈ eligibleRows db ↔ r ∈ db.anchor_leaf2 ∧
        (∀ lp, db.event_stream = some lp → lp < r.view)) ∧
    isPrefOf (decideChain db) (eligibleRows db) ∧
    consecFrom none (decideChain db) = true ∧
    (decideChain db).Pairwise (fun a b => a.view < b.view) ∧
    (∀ q, isPrefOf q (eligibleRows db) → consecFrom none q = true →
        isPrefOf q (decideChain db)) ∧
    (∀ last, (decideChain db).getLast? = some last →
        ∃ ev, decideEventOf db = some ev ∧ ev.qc = last.qc ∧
          ev.view_number = last.leaf.view) ∧
    (decideChain db = [] →
        decideEventOf db = none ∧ decideStep consumer db = .noEvent db ∧
        ∀ fuel, generateDecideEvents consumer fuel db = .ok (db, [])) := by
  refine ⟨?_, collectChain_isPref none (eligibleRows db),
    collectChain_consec none (eligibleRows db), ?_,
    fun q h1 h2 => collectChain_maximal q none (eligibleRows db) h1 h2,
    ?_, ?_⟩
  · intro r
    unfold eligibleRows
    rw [List.mem_filter]
    constructor
    · rintro ⟨h1, h2⟩
      refine ⟨h1, ?_⟩
      intro lp hlp
      rw [hlp] at h2
      simp only [fromViewOf, decide_eq_true_eq] at h2
      omega
    · rintro ⟨h1, h2⟩
      refine ⟨h1, ?_⟩
      cases hes : db.event_stream with
      | none => simp [fromViewOf]
      | some lp =>
        have h3 := h2 lp hes
        simp only [fromViewOf, decide_eq_true_eq]
        omega
  · have h1 : (decideChain db).Sublist (eligibleRows db) :=
      isPrefOf_sublist (collectChain_isPref none (eligibleRows db))
    have h2 : (eligibleRows db).Sublist db.anchor_leaf2 :=
      List.filter_sublist db.anchor_leaf2
    exact List.Pairwise.sublist (h1.trans h2) hsorted
  · intro last hlast
    refine ⟨⟨last.leaf.view,
      buildLeafChain db (decideChain db) (chainFromView db) last.leaf.view,
      last.qc⟩, ?_, rfl, rfl⟩
    simp only [decideEventOf, hlast]
  · intro hchain
    have hlast : (decideChain db).getLast? = none := by
      rw [hchain]
      rfl
    refine ⟨?_, decideStep_noEvent consumer db hlast, ?_⟩
    · simp only [decideEventOf, hlast]
    · intro fuel
      cases fuel with
      | zero => rfl
      | succ n =>
        simp only [generateDecideEvents, decideStep_noEvent consumer db hlast]

/-- Witness for C1: a database whose only decided leaf is at or below
`last_processed_view`: the chain is empty and the iteration changes
nothing and emits nothing. -/
theorem decide_event_chain_spec_witness :
    decideStep (fun _ => .ok ())
      { anchor_leaf2 := [⟨5, ⟨5, 50, none⟩, ⟨5, 1⟩⟩], vid_share2 := [],
        da_proposal2 := [], quorum_proposals2 := [], quorum_certificate2 := [],
        state_cert := [], finalized_state_cert := [], event_stream := some 9 } =
    .noEvent
      { anchor_leaf2 := [⟨5, ⟨5, 50, none⟩, ⟨5, 1⟩⟩], vid_share2 := [],
        da_proposal2 := [], quorum_proposals2 := [], quorum_certificate2 := [],
        state_cert := [], finalized_state_cert := [], event_stream := some 9 } := by
  exact ((decide_event_chain_spec (fun _ => .ok ())
    { anchor_leaf2 := [⟨5, ⟨5, 50, none⟩, ⟨5, 1⟩⟩], vid_share2 := [],
      da_proposal2 := [], quorum_proposals2 := [], quorum_certificate2 := [],
      state_cert := [], finalized_state_cert := [], event_stream := some 9 }
    (by decide)).2.2.2.2.2.2 (by rfl)).2.1

/-! ## C2: anchor-leaf preservation -/

/-- C2 counterexample: with the default retention configuration, a current
view of 302001 and a decided-leaf table holding only the anchor row at view
0, `prune` deletes the anchor row (`prune_to_view` has no exception for
`max(view)`), leaving the table empty. -/
theorem prune_deletes_anchor_leaf :
    (prune
      { anchor_leaf2 := [⟨0, ⟨0, 0, none⟩, ⟨0, 0⟩⟩], vid_share2 := [],
        da_proposal2 := [], quorum_proposals2 := [], quorum_certificate2 := [],
        state_cert := [], finalized_state_cert := [], event_stream := none }
      defaultGcOpt (fun _ => 0) 302001).anchor_leaf2 = [] := by
  rfl

/-- C2 amended: the decide-event generator deletes `anchor_leaf2` rows only
in the half-open range `[from_view, to_view)` and always keeps the row of
maximum view; `prune` keeps the anchor row whenever its view is inside both
retention windows (it deletes the anchor only when the anchor lags behind
`cur_view` by more than the retention). -/
theorem anchor_preservation_amended (db : DB)
    (consumer : Event → Except Unit Unit) (r : AnchorRow)
    (hkeyed : ∀ x ∈ db.anchor_leaf2, x.leaf.view = x.view)
    (hr : r ∈ db.anchor_leaf2)
    (hmax : ∀ x ∈ db.anchor_leaf2, x.view ≤ r.view) :
    (∀ db' ev, decideStep consumer db = .emitted db' ev →
        ∃ fromV toV,
          db'.anchor_leaf2 = db.anchor_leaf2.filter
            (fun x => ¬ (fromV ≤ x.view ∧ x.view < toV)) ∧
          (∀ x ∈ db.anchor_leaf2, x ∉ db'.anchor_leaf2 →
            fromV ≤ x.view ∧ x.view < toV) ∧
          r ∈ db'.anchor_leaf2) ∧
    (∀ (gc : GcOpt) (usage : DB → Nat) (curView : Nat),
        ¬ r.view < curView - gc.target_retention →
        ¬ r.view < curView - gc.minimum_retention →
        r ∈ (prune db gc usage curView).anchor_leaf2) := by
  constructor
  · intro db' ev h
    obtain ⟨last, hlast, hev, hqc, hdb'⟩ := decideStep_emitted consumer db db' ev h
    refine ⟨chainFromView db, last.leaf.view, ?_, ?_, ?_⟩
    · rw [hdb']
      rfl
    · intro x hx hx'
      by_contra hP
      refine hx' ?_
      rw [hdb']
      show x ∈ List.filter _ db.anchor_leaf2
      exact List.mem_filter.mpr ⟨hx, by simp only [decide_eq_true_eq]; exact hP⟩
    · have hlastmem : last ∈ decideChain db := List.mem_of_mem_getLast? hlast
      have hlastelig : last ∈ eligibleRows db :=
        (isPrefOf_sublist (collectChain_isPref none (eligibleRows db))).subset
          hlastmem
      have hlastanchor : last ∈ db.anchor_leaf2 :=
        (List.mem_filter.mp hlastelig).1
      have hle : last.leaf.view ≤ r.view := by
        rw [hkeyed last hlastanchor]
        exact hmax last hlastanchor
      rw [hdb']
      show r ∈ List.filter _ db.anchor_leaf2
      refine List.mem_filter.mpr ⟨hr, ?_⟩
      simp only [decide_eq_true_eq]
      rintro ⟨_, hlt⟩
      omega
  · intro gc usage curView h1 h2
    have hm1 := prune_to_view_mem db (curView - gc.target_retention)
    by_cases hu : gc.target_usage <
        usage (prune_to_view db (curView - gc.target_retention))
    · have hm2 := prune_to_view_mem
        (prune_to_view db (curView - gc.target_retention))
        (curView - gc.minimum_retention)
      simp only [prune]
      rw [if_pos hu]
      exact (hm2.1 r).mpr ⟨(hm1.1 r).mpr ⟨hr, h1⟩, h2⟩
    · simp only [prune]
      rw [if_neg hu]
      exact (hm1.1 r).mpr ⟨hr, h1⟩

/-- Witness for C2's amended theorem: a two-row table with the anchor at
view 4; pruning at current view 5 with retention 10 keeps the anchor. -/
theorem anchor_preservation_amended_witness :
    (⟨4, ⟨4, 40, none⟩, ⟨4, 0⟩⟩ : AnchorRow) ∈
      (prune
        { anchor_leaf2 := [⟨3, ⟨3, 30, none⟩, ⟨3, 0⟩⟩,
            ⟨4, ⟨4, 40, none⟩, ⟨4, 0⟩⟩],
          vid_share2 := [], da_proposal2 := [], quorum_proposals2 := [],
          quorum_certificate2 := [], state_cert := [],
          finalized_state_cert := [], event_stream := none }
        ⟨10, 10, 100⟩ (fun _ => 0) 5).anchor_leaf2 := by
  exact (anchor_preservation_amended
    { anchor_leaf2 := [⟨3, ⟨3, 30, none⟩, ⟨3, 0⟩⟩,
        ⟨4, ⟨4, 40, none⟩, ⟨4, 0⟩⟩],
      vid_share2 := [], da_proposal2 := [], quorum_proposals2 := [],
      quorum_certificate2 := [], state_cert := [],
      finalized_state_cert := [], event_stream := none }
    (fun _ => .ok ()) ⟨4, ⟨4, 40, none⟩, ⟨4, 0⟩⟩
    (by decide) (by decide) (by decide)).2 ⟨10, 10, 100⟩ (fun _ => 0) 5
    (by decide) (by decide)

/-! ## C3: consumer errors abort without state change -/

/-- C3: when the event consumer fails on the decide event, the generator
aborts before its write transaction: `last_processed_view` and every table
are exactly as after the durable leaf upsert, no row is deleted, and the
enclosing `append_decided_leaves` still returns success (it also returns
success for every other input, since generator and pruner failures are only
logged). -/
theorem consumer_error_aborts (db : DB) (gc : GcOpt) (usage : DB → Nat)
    (view : Nat) (chain : List (LeafInfoIn × QC))
    (consumer : Event → Except Unit Unit) (fuel : Nat) (ev : Event)
    (hev : decideEventOf (upsertDecidedRows db chain) = some ev)
    (herr : ∀ ev', consumer ev' = .error ()) :
    decideStep consumer (upsertDecidedRows db chain) =
      .consumerError (upsertDecidedRows db chain) ∧
    generateDecideEvents consumer (fuel + 1) (upsertDecidedRows db chain) =
      .error (upsertDecidedRows db chain) ∧
    append_decided_leaves db gc usage view chain consumer (fuel + 1) =
      (upsertDecidedRows db chain, true) ∧
    (upsertDecidedRows db chain).event_stream = db.event_stream ∧
    (upsertDecidedRows db chain).vid_share2 = db.vid_share2 ∧
    (upsertDecidedRows db chain).da_proposal2 = db.da_proposal2 ∧
    (upsertDecidedRows db chain).quorum_proposals2 = db.quorum_proposals2 ∧
    (upsertDecidedRows db chain).quorum_certificate2 = db.quorum_certificate2 ∧
    (upsertDecidedRows db chain).state_cert = db.state_cert ∧
    (∀ p ∈ chain, ∃ y ∈ (upsertDecidedRows db chain).anchor_leaf2,
        y.view = p.2.view) ∧
    (∀ (db₂ : DB) (chain₂ : List (LeafInfoIn × QC))
        (consumer₂ : Event → Except Unit Unit) (fuel₂ : Nat),
        (append_decided_leaves db₂ gc usage view chain₂ consumer₂ fuel₂).2 =
          true) := by
  have hstep : decideStep consumer (upsertDecidedRows db chain) =
      .consumerError (upsertDecidedRows db chain) := by
    unfold decideStep
    unfold decideEventOf at hev
    rcases hlast : (decideChain (upsertDecidedRows db chain)).getLast? with _ | last
    · rw [hlast] at hev
      exact Option.noConfusion hev
    · simp only [hlast]
      rw [herr]
  have hgen : generateDecideEvents consumer (fuel + 1)
      (upsertDecidedRows db chain) = .error (upsertDecidedRows db chain) := by
    simp only [generateDecideEvents, hstep]
  refine ⟨hstep, hgen, ?_, rfl, rfl, rfl, rfl, rfl, rfl, ?_, ?_⟩
  · simp only [append_decided_leaves]
    rw [hgen]
  · intro p hp
    show ∃ y ∈ (chain.map anchorRowOf).foldl upsertAnchorRow db.anchor_leaf2,
      y.view = p.2.view
    apply foldl_upsert_view_mem
    refine Or.inr ⟨anchorRowOf p, List.mem_map_of_mem anchorRowOf hp, rfl⟩
  · intro db₂ chain₂ consumer₂ fuel₂
    rcases hg : generateDecideEvents consumer₂ fuel₂
        (upsertDecidedRows db₂ chain₂) with dbE | ⟨db2, evs⟩
    · simp only [append_decided_leaves, hg]
    · simp only [append_decided_leaves, hg]

/-- Witness for C3: one decided leaf at view 10 appended to an empty store,
with a consumer that always fails: `append_decided_leaves` returns success
and the store is exactly the upserted state. -/
theorem consumer_error_aborts_witness :
    append_decided_leaves
      { anchor_leaf2 := [], vid_share2 := [], da_proposal2 := [],
        quorum_proposals2 := [], quorum_certificate2 := [], state_cert := [],
        finalized_state_cert := [], event_stream := none }
      defaultGcOpt (fun _ => 0) 11
      [(⟨⟨10, 100, none⟩⟩, ⟨10, 0⟩)] (fun _ => .error ()) 3 =
    (upsertDecidedRows
      { anchor_leaf2 := [], vid_share2 := [], da_proposal2 := [],
        quorum_proposals2 := [], quorum_certificate2 := [], state_cert := [],
        finalized_state_cert := [], event_stream := none }
      [(⟨⟨10, 100, none⟩⟩, ⟨10, 0⟩)], true) := by
  exact (consumer_error_aborts
    { anchor_leaf2 := [], vid_share2 := [], da_proposal2 := [],
      quorum_proposals2 := [], quorum_certificate2 := [], state_cert := [],
      finalized_state_cert := [], event_stream := none }
    defaultGcOpt (fun _ => 0) 11
    [(⟨⟨10, 100, none⟩⟩, ⟨10, 0⟩)] (fun _ => .error ()) 2
    ⟨10, [⟨⟨10, 100, none⟩, none, none⟩], ⟨10, 0⟩⟩
    (by rfl) (fun _ => rfl)).2.2.1

/-! ## C10: leaves are stored payload-stripped, keyed by the QC's view -/

/-- C10: every value row built by `append_decided_leaves` is keyed by the
view number of the accompanying quorum certificate and stores the
serialization of the leaf after `unfill_block_payload` (so no stored leaf
blob embeds a payload, even when the caller supplied one); the serialization
is injective (decoding recovers the payload-stripped leaf), and every row
the upsert adds to `anchor_leaf2` is payload-free. -/
theorem append_stores_unfilled_leaf :
    (∀ (chain : List (LeafInfoIn × QC)) (p : LeafInfoIn × QC), p ∈ chain →
        (p.2.view, encodeLeaf (unfill_block_payload p.1.leaf), encodeQC p.2)
          ∈ appendValues chain) ∧
    (∀ (chain : List (LeafInfoIn × QC)) (val : Nat × List Nat × List Nat),
        val ∈ appendValues chain →
        ∃ p ∈ chain, val.1 = p.2.view ∧
          val.2.1 = encodeLeaf (unfill_block_payload p.1.leaf) ∧
          val.2.2 = encodeQC p.2 ∧
          decodeLeaf val.2.1 = some (unfill_block_payload p.1.leaf) ∧
          (unfill_block_payload p.1.leaf).payload = none) ∧
    (∀ l : Leaf2, decodeLeaf (encodeLeaf l) = some l) ∧
    (∀ (db : DB) (chain : List (LeafInfoIn × QC)) (r : AnchorRow),
        r ∈ (upsertDecidedRows db chain).anchor_leaf2 →
        r ∈ db.anchor_leaf2 ∨ ∃ p ∈ chain, r = anchorRowOf p) ∧
    (∀ p : LeafInfoIn × QC, (anchorRowOf p).view = p.2.view ∧
        (anchorRowOf p).leaf = unfill_block_payload p.1.leaf ∧
        (anchorRowOf p).leaf.payload = none) := by
  have hround : ∀ l : Leaf2, decodeLeaf (encodeLeaf l) = some l := by
    intro l
    rcases l with ⟨v, h, pay⟩
    cases pay with
    | none => simp [encodeLeaf, decodeLeaf, encodeOptPayload, decodeOptPayload,
        unfill_block_payload]
    | some p => simp [encodeLeaf, decodeLeaf, encodeOptPayload, decodeOptPayload]
  refine ⟨?_, ?_, hround, ?_, ?_⟩
  · intro chain p hp
    exact List.mem_map_of_mem _ hp
  · intro chain val hval
    obtain ⟨p, hp, hpv⟩ := List.mem_map.mp hval
    refine ⟨p, hp, ?_, ?_, ?_, ?_, rfl⟩
    · rw [← hpv]
    · rw [← hpv]
    · rw [← hpv]
    · rw [← hpv]
      exact hround (unfill_block_payload p.1.leaf)
  · intro db chain r h
    rcases mem_foldl_upsert (chain.map anchorRowOf) db.anchor_leaf2 r h
      with h1 | h1
    · exact Or.inl h1
    · obtain ⟨p, hp, hpr⟩ := List.mem_map.mp h1
      exact Or.inr ⟨p, hp, hpr.symm⟩
  · intro p
    exact ⟨rfl, rfl, rfl⟩

/-- Witness for C10 at concrete inputs: a leaf supplied with an embedded
payload is stored payload-stripped under the QC's view. -/
theorem append_stores_unfilled_leaf_witness :
    ((10, encodeLeaf (unfill_block_payload ⟨10, 100, some [1]⟩),
        encodeQC ⟨10, 7⟩) : Nat × List Nat × List Nat) ∈
      appendValues [(⟨⟨10, 100, some [1]⟩⟩, ⟨10, 7⟩)] ∧
    decodeLeaf (encodeLeaf ⟨3, 4, some [7, 8]⟩) = some ⟨3, 4, some [7, 8]⟩ ∧
    (anchorRowOf (⟨⟨10, 100, some [1]⟩⟩, ⟨10, 7⟩)).leaf.payload = none := by
  refine ⟨?_, append_stores_unfilled_leaf.2.2.1 ⟨3, 4, some [7, 8]⟩,
    (append_stores_unfilled_leaf.2.2.2.2 (⟨⟨10, 100, some [1]⟩⟩, ⟨10, 7⟩)).2.2⟩
  exact append_stores_unfilled_leaf.1 [(⟨⟨10, 100, some [1]⟩⟩, ⟨10, 7⟩)]
    (⟨⟨10, 100, some [1]⟩⟩, ⟨10, 7⟩) (List.mem_singleton_self _)

end Espresso
